import Mathlib

/-!
Verification of the pause-segmentation engine of `BreakDetection.py`.

The source operates on a list of GPS fixes `(lat, lon, timestamp)` and runs a
two-state scan (`detect_pauses`) that opens and closes pause intervals using
three sliding-window statistics built on the `haversine` distance.

Modelling choices:
* Coordinates and timestamps are rationals (`ℚ`); the Python code uses
  IEEE floats and `datetime` values whose differences are taken in seconds.
* The `haversine` primitive computes with transcendental functions, so the
  computable development is parameterized by an arbitrary distance function
  `hav : Fix → Fix → ℚ`; every other function of the source calls it as an
  opaque black box, so the segmentation logic is embedded faithfully.
  The actual haversine formula is embedded separately over `ℝ`
  (`BreakDetection.haversine`) for the algebraic claims about it.
* Python list indexing `points[i]` is modelled with `List.getD` and a default
  fix; all claims only ever touch in-range indices.
-/

namespace BreakDetection

/-- A fix: one timestamped geographic sample, `(lat, lon, timestamp)` in the
source.  Timestamps are in seconds (Python subtracts `datetime`s and takes
`total_seconds()`). -/
structure Fix where
  lat : ℚ
  lon : ℚ
  ts : ℚ
deriving DecidableEq

instance : Inhabited Fix := ⟨⟨0, 0, 0⟩⟩

/-- Python `points[i]`, modelled total with a default fix (all uses in the
source are in range). -/
def getF (points : List Fix) (i : ℕ) : Fix := points.getD i default

/-- The keyword parameters of `detect_pauses`, in source order. -/
structure Config where
  threshold_start : ℚ
  threshold_end : ℚ
  time_window : ℚ
  pace_threshold : ℚ
  nb_points_pace : ℕ
  density_threshold : ℚ
  density_window : ℚ
  time_window_end : ℚ
  pace_threshold_end : ℚ
  nb_points_pace_end : ℕ
deriving DecidableEq

/-- The default values of `detect_pauses`'s keyword parameters. -/
def default_config : Config := ⟨30, 30, 45, 15, 10, 1, 30, 30, 20, 7⟩

/-- Python's accumulator update `if distance > max_distance: max_distance =
distance` (lines 84-85): the maximum of the two arguments. -/
def max2 (a b : ℚ) : ℚ := if a < b then b else a

/-- Maximum of all pairwise distances in a list of fixes, starting from 0.
Python (lines 80-86) folds the `max2` update over every ordered pair
`(i, j)` with `i < j`, starting the accumulator at 0; this recursion
computes the same value (`max2` is associative, commutative, and 0 is its
initial accumulator). -/
def max_pairwise (hav : Fix → Fix → ℚ) : List Fix → ℚ
  | [] => 0
  | p :: rest => max2 ((rest.map (hav p)).foldl max2 0) (max_pairwise hav rest)

/-- Source `calculate_max_distance_window(points, start_index, duration_seconds)`
(source lines 61-87): the window is `points[start_index]` followed by the
fixes after it whose timestamp is at most `start.ts + duration_seconds`
(the scan breaks at the first fix beyond the bound); return the maximum
pairwise distance within the window. -/
def calculate_max_distance_window (hav : Fix → Fix → ℚ) (points : List Fix)
    (start_index : ℕ) (duration_seconds : ℚ) : ℚ :=
  let start_point := getF points start_index
  let window_points := start_point ::
    (points.drop (start_index + 1)).takeWhile
      (fun p => p.ts ≤ start_point.ts + duration_seconds)
  max_pairwise hav window_points

/-- Sum of `hav points[a+j] points[a+j+1]` for `j` in `[0, b-a)`: the
`total_distance` loop of `calculate_average_pace_last_points` (lines
107-111) and the `distance_during_pause` loops (lines 268-271, 315-318). -/
def distance_during (hav : Fix → Fix → ℚ) (points : List Fix) (a b : ℕ) : ℚ :=
  ((List.range (b - a)).map
    (fun j => hav (getF points (a + j)) (getF points (a + j + 1)))).sum

/-- Sum of the per-segment elapsed seconds for `j` in `[0, b-a)`: the
`total_time` accumulation in the same loop (line 112). -/
def time_during (points : List Fix) (a b : ℕ) : ℚ :=
  ((List.range (b - a)).map
    (fun j => (getF points (a + j + 1)).ts - (getF points (a + j)).ts)).sum

/-- Source `calculate_average_pace_last_points(points, index, nb_points)` (lines
89-119).  Python sets `start_index = 0` when `index < nb_points` and
`index - nb_points` otherwise; truncated `ℕ` subtraction computes exactly
that.  Returns `none` when `start_index >= index`, or when the total
distance or the total time over the segments `[start_index, index)` is 0;
otherwise `(total_time / total_distance) * 1000 / 60` (min/km). -/
def calculate_average_pace_last_points (hav : Fix → Fix → ℚ) (points : List Fix)
    (index : ℕ) (nb_points : ℕ) : Option ℚ :=
  let start_index := index - nb_points
  if index ≤ start_index then none
  else
    let total_distance := distance_during hav points start_index index
    let total_time := time_during points start_index index
    if total_distance = 0 ∨ total_time = 0 then none
    else some ((total_time / total_distance) * 1000 / 60)

/-- The backward counting loop of `calculate_point_density_last_seconds`
(lines 133-138): scan indices `i, i-1, ..., 0`, counting while
`points[j].ts ≥ start_time`, stopping at the first fix outside the bound. -/
def densityCount (points : List Fix) (start_time : ℚ) : ℕ → ℕ
  | 0 => if start_time ≤ (getF points 0).ts then 1 else 0
  | i + 1 =>
    if start_time ≤ (getF points (i + 1)).ts then densityCount points start_time i + 1
    else 0

/-- Source `calculate_point_density_last_seconds(points, index, duration_seconds)`
(lines 121-151).  Python's earliest counted index `index - nb + 1` is
`index + 1 - nb` in truncated `ℕ` arithmetic (`nb ≤ index + 1` always). -/
def calculate_point_density_last_seconds (points : List Fix) (index : ℕ)
    (duration_seconds : ℚ) : Option ℚ :=
  if index = 0 then none
  else
    let current_time := (getF points index).ts
    let start_time := current_time - duration_seconds
    let nb_window_points := densityCount points start_time index
    if nb_window_points < 2 then none
    else
      let actual_time := current_time - (getF points (index + 1 - nb_window_points)).ts
      if actual_time = 0 then none
      else some ((nb_window_points : ℚ) / actual_time)

/-- Source `cumulative_distances[k]` (lines 196-201): `cumulative[0] = 0` and
`cumulative[k+1] = cumulative[k] + hav points[k] points[k+1]`, written as a
function of the index instead of a precomputed list. -/
def cumulative_distance (hav : Fix → Fix → ℚ) (points : List Fix) : ℕ → ℚ
  | 0 => 0
  | k + 1 => cumulative_distance hav points k + hav (getF points k) (getF points (k + 1))

/-- The `pause_info` record built at a pause closure (lines 276-289) and at
end-of-track (lines 323-336); both sites compute every field identically. -/
structure PauseInfo where
  start_ts : ℚ
  end_ts : ℚ
  duration_seconds : ℚ
  time_from_start_seconds : ℚ
  start_coords : ℚ × ℚ
  end_coords : ℚ × ℚ
  distance_meters : ℚ
  start_index : ℕ
  end_index : ℕ
  distance_start_km : ℚ
  distance_end_km : ℚ
  nb_points : ℕ
deriving DecidableEq

/-- Build the `pause_info` dictionary from the recorded pause start
(`pause_start`, `pause_start_index`, `pause_start_distance`) and the end
index `i`; shared by the normal closure and the end-of-track closure. -/
def make_pause_info (hav : Fix → Fix → ℚ) (points : List Fix) (pause_start : Fix)
    (pause_start_index : ℕ) (pause_start_distance : ℚ) (i : ℕ) : PauseInfo :=
  let pause_end := getF points i
  { start_ts := pause_start.ts
    end_ts := pause_end.ts
    duration_seconds := pause_end.ts - pause_start.ts
    time_from_start_seconds := pause_start.ts - (getF points 0).ts
    start_coords := (pause_start.lat, pause_start.lon)
    end_coords := (pause_end.lat, pause_end.lon)
    distance_meters := distance_during hav points pause_start_index i
    start_index := pause_start_index
    end_index := i
    distance_start_km := pause_start_distance / 1000
    distance_end_km := cumulative_distance hav points i / 1000
    nb_points := i - pause_start_index + 1 }

/-- The scan state of `detect_pauses`: Python keeps `in_pause : bool` plus
`pause_start`, `pause_start_index`, `pause_start_distance`, which are all
set together on a start transition and all cleared together on an end
transition, so they form a sum type. -/
inductive ScanState where
  | notPaused : ScanState
  | paused (pause_start : Fix) (pause_start_index : ℕ) (pause_start_distance : ℚ) : ScanState
deriving DecidableEq

/-- The three start criteria of lines 219-230, conjoined: max displacement
below `threshold_start`, pace `None` or slower than `pace_threshold`,
density `None` or below `density_threshold`. -/
def start_criteria (hav : Fix → Fix → ℚ) (cfg : Config) (points : List Fix) (i : ℕ) : Bool :=
  decide (calculate_max_distance_window hav points i cfg.time_window < cfg.threshold_start)
  && (match calculate_average_pace_last_points hav points i cfg.nb_points_pace with
      | none => true
      | some p => decide (cfg.pace_threshold < p))
  && (match calculate_point_density_last_seconds points i cfg.density_window with
      | none => true
      | some d => decide (d < cfg.density_threshold))

/-- The two end criteria of lines 249-260, conjoined: max displacement above
`threshold_end`, and pace a concrete value faster than `pace_threshold_end`
(`None` does not satisfy). -/
def end_criteria (hav : Fix → Fix → ℚ) (cfg : Config) (points : List Fix) (i : ℕ) : Bool :=
  decide (cfg.threshold_end < calculate_max_distance_window hav points i cfg.time_window_end)
  && (match calculate_average_pace_last_points hav points i cfg.nb_points_pace_end with
      | none => false
      | some p => decide (p < cfg.pace_threshold_end))

/-- One iteration of the `while i < len(points)` loop body (lines 210-304):
from the current state at index `i`, the next state and the pause emitted
at this index, if any. -/
def scanStep (hav : Fix → Fix → ℚ) (cfg : Config) (points : List Fix) (i : ℕ) :
    ScanState → ScanState × Option PauseInfo
  | .notPaused =>
    if start_criteria hav cfg points i then
      (.paused (getF points i) i (cumulative_distance hav points i), none)
    else (.notPaused, none)
  | .paused ps psi psd =>
    if end_criteria hav cfg points i then
      (.notPaused, some (make_pause_info hav points ps psi psd i))
    else (.paused ps psi psd, none)

/-- The scan from index `i` with `steps` loop iterations left, followed by
the end-of-track epilogue (lines 307-337): when the loop exhausts while
still paused, one final pause ending at index `len(points) - 1` is
appended. -/
def scanFrom (hav : Fix → Fix → ℚ) (cfg : Config) (points : List Fix) :
    ℕ → ℕ → ScanState → List PauseInfo
  | 0, _, .notPaused => []
  | 0, _, .paused ps psi psd => [make_pause_info hav points ps psi psd (points.length - 1)]
  | steps + 1, i, st =>
    (scanStep hav cfg points i st).2.toList ++
      scanFrom hav cfg points steps (i + 1) (scanStep hav cfg points i st).1

/-- Source `detect_pauses` (lines 153-344), with the GPX extraction and the console
printing stripped: fewer than 2 fixes yields `([], points)`; otherwise the
two-state scan runs over indices `0 .. len(points)-1` and the pause list is
returned together with the points. -/
def detect_pauses (hav : Fix → Fix → ℚ) (points : List Fix) (cfg : Config) :
    List PauseInfo × List Fix :=
  if points.length < 2 then ([], points)
  else (scanFrom hav cfg points points.length 0 .notPaused, points)

/-- The pauses emitted by the loop iterations alone (no end-of-track
epilogue); used to separate normal closures from the synthesized final
pause in the statements below. -/
def loopOut (hav : Fix → Fix → ℚ) (cfg : Config) (points : List Fix) :
    ℕ → ℕ → ScanState → List PauseInfo
  | 0, _, _ => []
  | steps + 1, i, st =>
    (scanStep hav cfg points i st).2.toList ++
      loopOut hav cfg points steps (i + 1) (scanStep hav cfg points i st).1

/-- The scan state left after the loop iterations. -/
def loopFinal (hav : Fix → Fix → ℚ) (cfg : Config) (points : List Fix) :
    ℕ → ℕ → ScanState → ScanState
  | 0, _, st => st
  | steps + 1, i, st =>
    loopFinal hav cfg points steps (i + 1) (scanStep hav cfg points i st).1

/-- One iteration of the loop of `calculate_average_pace_during_pause`
(lines 376-390): the instantaneous pace of the segment from fix `i` to fix
`i + 1` when both its distance and its elapsed time are positive, `none`
otherwise. -/
def segment_pace (hav : Fix → Fix → ℚ) (points : List Fix) (i : ℕ) : Option ℚ :=
  let p1 := getF points i
  let p2 := getF points (i + 1)
  let distance_meters := hav p1 p2
  let duration_seconds := p2.ts - p1.ts
  if 0 < distance_meters ∧ 0 < duration_seconds then
    some ((duration_seconds / distance_meters) * 1000 / 60)
  else none

/-- The list of qualifying per-segment paces of
`calculate_average_pace_during_pause`: `segment_pace` collected over the
segments starting in `[start_index, end_index)`. -/
def instantaneous_paces (hav : Fix → Fix → ℚ) (points : List Fix)
    (start_index end_index : ℕ) : List ℚ :=
  (List.range (end_index - start_index)).filterMap
    (fun k => segment_pace hav points (start_index + k))

/-- Source `calculate_average_pace_during_pause(points, start_index, end_index)`
(lines 364-397): `None` on an empty list or `start_index >= end_index`;
otherwise the arithmetic mean of the qualifying per-segment paces, `None`
when no segment qualifies. -/
def calculate_average_pace_during_pause (hav : Fix → Fix → ℚ) (points : List Fix)
    (start_index end_index : ℕ) : Option ℚ :=
  if points = [] ∨ end_index ≤ start_index then none
  else
    let paces := instantaneous_paces hav points start_index end_index
    if paces = [] then none
    else some (paces.sum / paces.length)

/-- Degrees to radians, `math.radians`. -/
noncomputable def radians (d : ℝ) : ℝ := d * (Real.pi / 180)

/-- Python's `math.atan2(y, x)`: the angle of the point `(x, y)`, with the
usual quadrant corrections and `atan2(0, 0) = 0`.  `haversine` only ever
calls it on nonnegative arguments. -/
noncomputable def atan2 (y x : ℝ) : ℝ :=
  if 0 < x then Real.arctan (y / x)
  else if x < 0 ∧ 0 ≤ y then Real.arctan (y / x) + Real.pi
  else if x < 0 ∧ y < 0 then Real.arctan (y / x) - Real.pi
  else if x = 0 ∧ 0 < y then Real.pi / 2
  else if x = 0 ∧ y < 0 then -(Real.pi / 2)
  else 0

/-- The intermediate `a` of the haversine formula (line 24):
`sin(dlat/2)^2 + cos(lat1) * cos(lat2) * sin(dlon/2)^2` over radians. -/
noncomputable def hav_a (lat1 lon1 lat2 lon2 : ℝ) : ℝ :=
  Real.sin ((radians lat2 - radians lat1) / 2) ^ 2 +
    Real.cos (radians lat1) * Real.cos (radians lat2) *
      Real.sin ((radians lon2 - radians lon1) / 2) ^ 2

/-- Source `haversine(lat1, lon1, lat2, lon2)` (lines 5-28) over the reals:
`R * 2 * atan2(sqrt(a), sqrt(1 - a))` with `R = 6371000`. -/
noncomputable def haversine (lat1 lon1 lat2 lon2 : ℝ) : ℝ :=
  6371000 * (2 * atan2 (Real.sqrt (hav_a lat1 lon1 lat2 lon2))
    (Real.sqrt (1 - hav_a lat1 lon1 lat2 lon2)))

/-- A fix at the origin at time 0. -/
def fixA : Fix := ⟨0, 0, 0⟩

/-- The same location as `fixA`, 10 seconds later. -/
def fixB : Fix := ⟨0, 0, 10⟩

/-- A fix about 33 m north of `fixA` (0.0003 degrees of latitude), 45
seconds later. -/
def fixC : Fix := ⟨3 / 10000, 0, 45⟩

/-- A 2-fix track that stays at one location. -/
def pts2 : List Fix := [fixA, fixB]

/-- A 2-fix track that moves 33 m in 45 s. -/
def pts_deg : List Fix := [fixA, fixC]

/-- The distance function of a track whose fixes all share one location:
`haversine` returns 0 on identical coordinates (proved below for the real
formula), so on `pts2` this is exactly what the source computes. -/
def hav0 : Fix → Fix → ℚ := fun _ _ => 0

/-- A distance function returning 33 m for every pair; on the two-point
track `pts_deg` the source only ever evaluates the distance of the single
pair `(fixA, fixC)`, whose haversine distance is about 33 m. -/
def hav33 : Fix → Fix → ℚ := fun _ _ => 33

/-! ## Helper lemmas -/

/-- The boolean `start_criteria` holds exactly when the three start criteria
hold as propositions, with the two `None` cases counting as satisfied. -/
lemma start_criteria_eq_true (hav : Fix → Fix → ℚ) (cfg : Config) (points : List Fix) (i : ℕ) :
    start_criteria hav cfg points i = true ↔
      (calculate_max_distance_window hav points i cfg.time_window < cfg.threshold_start ∧
        (calculate_average_pace_last_points hav points i cfg.nb_points_pace = none ∨
          ∃ p, calculate_average_pace_last_points hav points i cfg.nb_points_pace = some p ∧
            cfg.pace_threshold < p) ∧
        (calculate_point_density_last_seconds points i cfg.density_window = none ∨
          ∃ d, calculate_point_density_last_seconds points i cfg.density_window = some d ∧
            d < cfg.density_threshold)) := by
  unfold start_criteria
  cases hp : calculate_average_pace_last_points hav points i cfg.nb_points_pace <;>
    cases hd : calculate_point_density_last_seconds points i cfg.density_window <;>
      simp [Bool.and_eq_true, decide_eq_true_eq, and_assoc]

/-- The boolean `end_criteria` holds exactly when both end criteria hold as
propositions; a `None` pace never satisfies. -/
lemma end_criteria_eq_true (hav : Fix → Fix → ℚ) (cfg : Config) (points : List Fix) (i : ℕ) :
    end_criteria hav cfg points i = true ↔
      (cfg.threshold_end < calculate_max_distance_window hav points i cfg.time_window_end ∧
        ∃ p, calculate_average_pace_last_points hav points i cfg.nb_points_pace_end = some p ∧
          p < cfg.pace_threshold_end) := by
  unfold end_criteria
  cases hp : calculate_average_pace_last_points hav points i cfg.nb_points_pace_end <;>
    simp [Bool.and_eq_true, decide_eq_true_eq]

/-! ## C1 and C2: the two state transitions -/

/-- C1: while NOT_PAUSED at index `i`, the scan transitions to PAUSED
exactly when all three start criteria hold simultaneously — the max
displacement over `time_window` is strictly below `threshold_start`, the
pace over the last `nb_points_pace` points is missing or strictly slower
than `pace_threshold`, and the density over `density_window` is missing or
strictly below `density_threshold` — and on that transition it records
`points[i]`, the index `i`, and `cumulative_distances[i]` as the
pause-start data; when the criteria do not all hold it stays NOT_PAUSED
and emits nothing. -/
theorem start_transition_iff (hav : Fix → Fix → ℚ) (cfg : Config) (points : List Fix) (i : ℕ) :
    (scanStep hav cfg points i .notPaused =
        (.paused (getF points i) i (cumulative_distance hav points i), none) ↔
      (calculate_max_distance_window hav points i cfg.time_window < cfg.threshold_start ∧
        (calculate_average_pace_last_points hav points i cfg.nb_points_pace = none ∨
          ∃ p, calculate_average_pace_last_points hav points i cfg.nb_points_pace = some p ∧
            cfg.pace_threshold < p) ∧
        (calculate_point_density_last_seconds points i cfg.density_window = none ∨
          ∃ d, calculate_point_density_last_seconds points i cfg.density_window = some d ∧
            d < cfg.density_threshold)))
    ∧ (scanStep hav cfg points i .notPaused = (.notPaused, none) ↔
      ¬ (calculate_max_distance_window hav points i cfg.time_window < cfg.threshold_start ∧
        (calculate_average_pace_last_points hav points i cfg.nb_points_pace = none ∨
          ∃ p, calculate_average_pace_last_points hav points i cfg.nb_points_pace = some p ∧
            cfg.pace_threshold < p) ∧
        (calculate_point_density_last_seconds points i cfg.density_window = none ∨
          ∃ d, calculate_point_density_last_seconds points i cfg.density_window = some d ∧
            d < cfg.density_threshold))) := by
  have h := start_criteria_eq_true hav cfg points i
  by_cases hb : start_criteria hav cfg points i = true
  · exact ⟨iff_of_true (by simp [scanStep, hb]) (h.mp hb),
      iff_of_false (by simp [scanStep, hb]) (not_not_intro (h.mp hb))⟩
  · have hnp := fun hP => hb (h.mpr hP)
    rw [Bool.not_eq_true] at hb
    exact ⟨iff_of_false (by simp [scanStep, hb]) hnp,
      iff_of_true (by simp [scanStep, hb]) hnp⟩

/-- C2: while PAUSED at index `i`, the scan closes the pause exactly when
both end criteria hold — the max displacement over `time_window_end` is
strictly above `threshold_end`, and the pace over the last
`nb_points_pace_end` points is a concrete value strictly below
`pace_threshold_end` (a missing pace never closes the pause) — and on that
transition it emits the `pause_info` record ending at `points[i]` and
returns to NOT_PAUSED; otherwise it stays PAUSED with the same recorded
start data and emits nothing. -/
theorem end_transition_iff (hav : Fix → Fix → ℚ) (cfg : Config) (points : List Fix) (i : ℕ)
    (ps : Fix) (psi : ℕ) (psd : ℚ) :
    (scanStep hav cfg points i (.paused ps psi psd) =
        (.notPaused, some (make_pause_info hav points ps psi psd i)) ↔
      (cfg.threshold_end < calculate_max_distance_window hav points i cfg.time_window_end ∧
        ∃ p, calculate_average_pace_last_points hav points i cfg.nb_points_pace_end = some p ∧
          p < cfg.pace_threshold_end))
    ∧ (scanStep hav cfg points i (.paused ps psi psd) = (.paused ps psi psd, none) ↔
      ¬ (cfg.threshold_end < calculate_max_distance_window hav points i cfg.time_window_end ∧
        ∃ p, calculate_average_pace_last_points hav points i cfg.nb_points_pace_end = some p ∧
          p < cfg.pace_threshold_end))
    ∧ (make_pause_info hav points ps psi psd i).end_index = i
    ∧ (make_pause_info hav points ps psi psd i).end_ts = (getF points i).ts := by
  have h := end_criteria_eq_true hav cfg points i
  by_cases hb : end_criteria hav cfg points i = true
  · exact ⟨iff_of_true (by simp [scanStep, hb]) (h.mp hb),
      iff_of_false (by simp [scanStep, hb]) (not_not_intro (h.mp hb)), rfl, rfl⟩
  · have hnp := fun hP => hb (h.mpr hP)
    rw [Bool.not_eq_true] at hb
    exact ⟨iff_of_false (by simp [scanStep, hb]) hnp,
      iff_of_true (by simp [scanStep, hb]) hnp, rfl, rfl⟩

/-! ## C3: end-of-sequence epilogue -/

/-- C3: the scan output is the pauses closed by the loop followed, exactly
when the loop finishes still PAUSED, by one additional synthesized pause —
built by the same `make_pause_info` as a normal closure — ending at index
`points.length - 1`, appended as the last element; its end index is
`points.length - 1` and its end timestamp is the last fix's timestamp. -/
theorem scan_end_of_sequence (hav : Fix → Fix → ℚ) (cfg : Config) (points : List Fix) :
    (∀ steps i st,
      scanFrom hav cfg points steps i st =
        loopOut hav cfg points steps i st ++
          (match loopFinal hav cfg points steps i st with
            | .notPaused => []
            | .paused ps psi psd =>
              [make_pause_info hav points ps psi psd (points.length - 1)]))
    ∧ (∀ ps psi psd,
        (make_pause_info hav points ps psi psd (points.length - 1)).end_index =
          points.length - 1 ∧
        (make_pause_info hav points ps psi psd (points.length - 1)).end_ts =
          (getF points (points.length - 1)).ts) := by
  constructor
  · intro steps
    induction steps with
    | zero =>
      intro i st
      cases st with
      | notPaused => rfl
      | paused ps psi psd => rfl
    | succ n ih =>
      intro i st
      rw [scanFrom, loopOut, loopFinal, ih, List.append_assoc]
  · intro ps psi psd
    exact ⟨rfl, rfl⟩

/-! ## C7 and C9: interval ordering and index invariants -/

/-- Scan invariant: starting a scan whose recorded pause-start index (if
paused) is at most the current index, every two emitted pauses in order
satisfy `end_index < start_index` and have strictly increasing start
indices, and every emitted pause starts no earlier than the recorded
start (when paused) or the current index (when not). -/
lemma scan_pairwise (hav : Fix → Fix → ℚ) (cfg : Config) (points : List Fix) :
    ∀ steps i st,
      (∀ ps psi psd, st = .paused ps psi psd → psi ≤ i) →
      List.Pairwise (fun p q => p.end_index < q.start_index ∧ p.start_index < q.start_index)
        (scanFrom hav cfg points steps i st) ∧
      ∀ p ∈ scanFrom hav cfg points steps i st,
        (match st with | .notPaused => i | .paused _ psi _ => psi) ≤ p.start_index := by
  intro steps
  induction steps with
  | zero =>
    intro i st hinv
    cases st with
    | notPaused => simp [scanFrom]
    | paused ps psi psd =>
      refine ⟨List.pairwise_singleton _ _, ?_⟩
      intro p hp
      rw [scanFrom, List.mem_singleton] at hp
      subst hp
      exact le_refl psi
  | succ n ih =>
    intro i st hinv
    cases st with
    | notPaused =>
      rw [scanFrom]
      by_cases hb : start_criteria hav cfg points i = true
      · have hstep : scanStep hav cfg points i .notPaused =
            (.paused (getF points i) i (cumulative_distance hav points i), none) := by
          simp [scanStep, hb]
        rw [hstep]
        have h := ih (i + 1) (.paused (getF points i) i (cumulative_distance hav points i))
          (by intro ps psi psd heq; cases heq; exact Nat.le_succ i)
        refine ⟨by simpa using h.1, ?_⟩
        intro p hp
        simp only [Option.toList, List.nil_append] at hp
        exact h.2 p hp
      · rw [Bool.not_eq_true] at hb
        have hstep : scanStep hav cfg points i .notPaused = (.notPaused, none) := by
          simp [scanStep, hb]
        rw [hstep]
        have h := ih (i + 1) .notPaused (by intro ps psi psd heq; cases heq)
        refine ⟨by simpa using h.1, ?_⟩
        intro p hp
        simp only [Option.toList, List.nil_append] at hp
        exact le_trans (Nat.le_succ i) (h.2 p hp)
    | paused ps psi psd =>
      have hpsi : psi ≤ i := hinv ps psi psd rfl
      rw [scanFrom]
      by_cases hb : end_criteria hav cfg points i = true
      · have hstep : scanStep hav cfg points i (.paused ps psi psd) =
            (.notPaused, some (make_pause_info hav points ps psi psd i)) := by
          simp [scanStep, hb]
        rw [hstep]
        have h := ih (i + 1) .notPaused (by intro ps' psi' psd' heq; cases heq)
        simp only [Option.toList, List.singleton_append]
        constructor
        · refine List.pairwise_cons.mpr ⟨?_, h.1⟩
          intro q hq
          have hq' : i + 1 ≤ q.start_index := h.2 q hq
          exact ⟨Nat.lt_of_succ_le hq', Nat.lt_of_succ_le (le_trans (Nat.succ_le_succ hpsi) hq')⟩
        · intro p hp
          rcases List.mem_cons.mp hp with hp | hp
          · subst hp; exact le_refl psi
          · exact le_trans hpsi (le_trans (Nat.le_succ i) (h.2 p hp))
      · rw [Bool.not_eq_true] at hb
        have hstep : scanStep hav cfg points i (.paused ps psi psd) =
            (.paused ps psi psd, none) := by
          simp [scanStep, hb]
        rw [hstep]
        have h := ih (i + 1) (.paused ps psi psd)
          (by intro ps' psi' psd' heq; cases heq; exact le_trans hpsi (Nat.le_succ i))
        refine ⟨by simpa using h.1, ?_⟩
        intro p hp
        simp only [Option.toList, List.nil_append] at hp
        exact h.2 p hp

/-- C7: the emitted pause list is strictly increasing in `start_index` and
non-overlapping: for every pair of pauses in emission order, the earlier
pause's `end_index` is strictly below the later pause's `start_index`. -/
theorem pause_intervals_ordered (hav : Fix → Fix → ℚ) (cfg : Config) (points : List Fix) :
    List.Pairwise (fun p q => p.end_index < q.start_index ∧ p.start_index < q.start_index)
      (detect_pauses hav points cfg).1 := by
  unfold detect_pauses
  by_cases hlen : points.length < 2
  · simp [hlen]
  · simp only [hlen, if_false]
    exact (scan_pairwise hav cfg points points.length 0 .notPaused
      (by intro ps psi psd heq; cases heq)).1

/-- Scan invariant: when the loop is entered with `i + steps = points.length`
and, if paused, a recorded start index strictly before `i`, every emitted
pause has `start_index ≤ end_index`. -/
lemma scan_start_le_end (hav : Fix → Fix → ℚ) (cfg : Config) (points : List Fix) :
    ∀ steps i st,
      i + steps = points.length →
      (∀ ps psi psd, st = .paused ps psi psd → psi < i) →
      ∀ p ∈ scanFrom hav cfg points steps i st, p.start_index ≤ p.end_index := by
  intro steps
  induction steps with
  | zero =>
    intro i st hlen hinv
    cases st with
    | notPaused => simp [scanFrom]
    | paused ps psi psd =>
      intro p hp
      rw [scanFrom, List.mem_singleton] at hp
      subst hp
      have hpsi : psi < i := hinv ps psi psd rfl
      show psi ≤ points.length - 1
      omega
  | succ n ih =>
    intro i st hlen hinv
    cases st with
    | notPaused =>
      rw [scanFrom]
      by_cases hb : start_criteria hav cfg points i = true
      · have hstep : scanStep hav cfg points i .notPaused =
            (.paused (getF points i) i (cumulative_distance hav points i), none) := by
          simp [scanStep, hb]
        rw [hstep]
        intro p hp
        simp only [Option.toList, List.nil_append] at hp
        exact ih (i + 1) _ (by omega) (by intro ps psi psd heq; cases heq; omega) p hp
      · rw [Bool.not_eq_true] at hb
        have hstep : scanStep hav cfg points i .notPaused = (.notPaused, none) := by
          simp [scanStep, hb]
        rw [hstep]
        intro p hp
        simp only [Option.toList, List.nil_append] at hp
        exact ih (i + 1) _ (by omega) (by intro ps psi psd heq; cases heq) p hp
    | paused ps psi psd =>
      have hpsi : psi < i := hinv ps psi psd rfl
      rw [scanFrom]
      by_cases hb : end_criteria hav cfg points i = true
      · have hstep : scanStep hav cfg points i (.paused ps psi psd) =
            (.notPaused, some (make_pause_info hav points ps psi psd i)) := by
          simp [scanStep, hb]
        rw [hstep]
        intro p hp
        simp only [Option.toList, List.singleton_append] at hp
        rcases List.mem_cons.mp hp with hp | hp
        · subst hp
          exact le_of_lt hpsi
        · exact ih (i + 1) _ (by omega) (by intro ps' psi' psd' heq; cases heq) p hp
      · rw [Bool.not_eq_true] at hb
        have hstep : scanStep hav cfg points i (.paused ps psi psd) =
            (.paused ps psi psd, none) := by
          simp [scanStep, hb]
        rw [hstep]
        intro p hp
        simp only [Option.toList, List.nil_append] at hp
        exact ih (i + 1) _ (by omega) (by intro ps' psi' psd' heq; cases heq; omega) p hp

/-- Every pause closed by the end condition (emitted during the loop, not by
the epilogue) has a strictly larger end index than start index. -/
lemma loopOut_strict (hav : Fix → Fix → ℚ) (cfg : Config) (points : List Fix) :
    ∀ steps i st,
      (∀ ps psi psd, st = .paused ps psi psd → psi < i) →
      ∀ p ∈ loopOut hav cfg points steps i st, p.start_index < p.end_index := by
  intro steps
  induction steps with
  | zero => intro i st _ p hp; simp [loopOut] at hp
  | succ n ih =>
    intro i st hinv
    cases st with
    | notPaused =>
      rw [loopOut]
      by_cases hb : start_criteria hav cfg points i = true
      · have hstep : scanStep hav cfg points i .notPaused =
            (.paused (getF points i) i (cumulative_distance hav points i), none) := by
          simp [scanStep, hb]
        rw [hstep]
        intro p hp
        simp only [Option.toList, List.nil_append] at hp
        exact ih (i + 1) _ (by intro ps psi psd heq; cases heq; omega) p hp
      · rw [Bool.not_eq_true] at hb
        have hstep : scanStep hav cfg points i .notPaused = (.notPaused, none) := by
          simp [scanStep, hb]
        rw [hstep]
        intro p hp
        simp only [Option.toList, List.nil_append] at hp
        exact ih (i + 1) _ (by intro ps psi psd heq; cases heq) p hp
    | paused ps psi psd =>
      have hpsi : psi < i := hinv ps psi psd rfl
      rw [loopOut]
      by_cases hb : end_criteria hav cfg points i = true
      · have hstep : scanStep hav cfg points i (.paused ps psi psd) =
            (.notPaused, some (make_pause_info hav points ps psi psd i)) := by
          simp [scanStep, hb]
        rw [hstep]
        intro p hp
        simp only [Option.toList, List.singleton_append] at hp
        rcases List.mem_cons.mp hp with hp | hp
        · subst hp
          exact hpsi
        · exact ih (i + 1) _ (by intro ps' psi' psd' heq; cases heq) p hp
      · rw [Bool.not_eq_true] at hb
        have hstep : scanStep hav cfg points i (.paused ps psi psd) =
            (.paused ps psi psd, none) := by
          simp [scanStep, hb]
        rw [hstep]
        intro p hp
        simp only [Option.toList, List.nil_append] at hp
        exact ih (i + 1) _ (by intro ps' psi' psd' heq; cases heq; omega) p hp

/-- Every pause the scan emits is a `make_pause_info` record at some start
data and end index. -/
lemma scan_mem_make (hav : Fix → Fix → ℚ) (cfg : Config) (points : List Fix) :
    ∀ steps i st, ∀ p ∈ scanFrom hav cfg points steps i st,
      ∃ ps psi psd j, p = make_pause_info hav points ps psi psd j := by
  intro steps
  induction steps with
  | zero =>
    intro i st p hp
    cases st with
    | notPaused => simp [scanFrom] at hp
    | paused ps psi psd =>
      rw [scanFrom, List.mem_singleton] at hp
      exact ⟨ps, psi, psd, points.length - 1, hp⟩
  | succ n ih =>
    intro i st p hp
    rw [scanFrom] at hp
    rcases List.mem_append.mp hp with hp | hp
    · cases st with
      | notPaused => by_cases hb : start_criteria hav cfg points i = true <;>
          simp [scanStep, hb] at hp
      | paused ps psi psd =>
        by_cases hb : end_criteria hav cfg points i = true
        · simp [scanStep, hb] at hp
          exact ⟨ps, psi, psd, i, hp⟩
        · simp [scanStep, hb] at hp
    · exact ih (i + 1) _ p hp

/-- C9: every emitted pause satisfies `start_index ≤ end_index` with
`nb_points = end_index - start_index + 1 ≥ 1`; a pause closed by the end
condition during the loop has `end_index` strictly greater than
`start_index`; and a pause synthesized at end-of-track can be degenerate:
on the two-fix track `pts_deg` with the default configuration the scan
opens a pause at the last index and emits a single-point pause with
`start_index = end_index = 1`, `nb_points = 1` and duration 0. -/
theorem pause_interval_indices :
    (∀ (hav : Fix → Fix → ℚ) (cfg : Config) (points : List Fix),
      ∀ p ∈ (detect_pauses hav points cfg).1,
        p.start_index ≤ p.end_index ∧
        p.nb_points = p.end_index - p.start_index + 1 ∧ 1 ≤ p.nb_points)
    ∧ (∀ (hav : Fix → Fix → ℚ) (cfg : Config) (points : List Fix),
      ∀ p ∈ loopOut hav cfg points points.length 0 .notPaused,
        p.start_index < p.end_index)
    ∧ (detect_pauses hav33 pts_deg default_config).1.map
        (fun p => (p.start_index, p.end_index, p.nb_points, p.duration_seconds)) =
      [(1, 1, 1, 0)] := by
  refine ⟨?_, ?_, ?_⟩
  · intro hav cfg points p hp
    unfold detect_pauses at hp
    by_cases hlen : points.length < 2
    · simp [hlen] at hp
    · rw [if_neg hlen] at hp
      have h1 := scan_start_le_end hav cfg points points.length 0 .notPaused (by omega)
        (by intro ps psi psd heq; cases heq) p hp
      obtain ⟨ps, psi, psd, j, rfl⟩ :=
        scan_mem_make hav cfg points points.length 0 .notPaused p hp
      exact ⟨h1, rfl, Nat.le_add_left 1 (j - psi)⟩
  · intro hav cfg points p hp
    exact loopOut_strict hav cfg points points.length 0 .notPaused
      (by intro ps psi psd heq; cases heq) p hp
  · norm_num [detect_pauses, scanFrom, scanStep, start_criteria, end_criteria,
      calculate_max_distance_window, calculate_average_pace_last_points,
      calculate_point_density_last_seconds, densityCount, distance_during, time_during,
      cumulative_distance, make_pause_info, max_pairwise, max2, getF,
      pts_deg, fixA, fixC, hav33, default_config, List.takeWhile, List.range_succ]

/-- Witness for C9: on the concrete track `pts_deg` with the default
configuration, the single emitted pause satisfies the index invariants. -/
theorem pause_interval_indices_witness :
    (make_pause_info hav33 pts_deg fixC 1 33 1).start_index ≤
        (make_pause_info hav33 pts_deg fixC 1 33 1).end_index ∧
      (make_pause_info hav33 pts_deg fixC 1 33 1).nb_points =
        (make_pause_info hav33 pts_deg fixC 1 33 1).end_index -
          (make_pause_info hav33 pts_deg fixC 1 33 1).start_index + 1 ∧
      1 ≤ (make_pause_info hav33 pts_deg fixC 1 33 1).nb_points := by
  refine pause_interval_indices.1 hav33 default_config pts_deg _ ?_
  have h : (detect_pauses hav33 pts_deg default_config).1 =
      [make_pause_info hav33 pts_deg fixC 1 33 1] := by
    norm_num [detect_pauses, scanFrom, scanStep, start_criteria, end_criteria,
      calculate_max_distance_window, calculate_average_pace_last_points,
      calculate_point_density_last_seconds, densityCount, distance_during, time_during,
      cumulative_distance, make_pause_info, max_pairwise, max2, getF,
      pts_deg, fixA, fixC, hav33, default_config, List.takeWhile, List.range_succ]
  rw [h]
  exact List.mem_singleton_self _

/-! ## C4: two-point inputs -/

/-- Unfolding equation for one loop iteration of the scan. -/
lemma scanFrom_succ (hav : Fix → Fix → ℚ) (cfg : Config) (points : List Fix)
    (steps i : ℕ) (st : ScanState) :
    scanFrom hav cfg points (steps + 1) i st =
      (scanStep hav cfg points i st).2.toList ++
        scanFrom hav cfg points steps (i + 1) (scanStep hav cfg points i st).1 := rfl

/-- C4 counterexample: on the 2-fix track `pts2` — two fixes at the same
location 10 seconds apart, whose pairwise haversine distance is 0 — with
the default configuration, the scan opens a pause at index 0 (displacement
0 < 30, pace and density both "no data") and can never close it (the
forward window at the last index is a single point), so the returned pause
list is NOT empty. -/
theorem two_point_run_not_empty : (detect_pauses hav0 pts2 default_config).1 ≠ [] := by
  norm_num [detect_pauses, scanFrom, scanStep, start_criteria, end_criteria,
    calculate_max_distance_window, calculate_average_pace_last_points,
    calculate_point_density_last_seconds, densityCount, distance_during, time_during,
    cumulative_distance, make_pause_info, max_pairwise, max2, getF,
    pts2, fixA, fixB, hav0, default_config, List.takeWhile, List.range_succ]

/-- C4 amended: for every 2-fix input and every configuration, segmentation
returns a pause list of length at most 1 (and in particular does not
fail); the list is empty exactly when the pause-start criteria fail at
index 0 and at index 1. -/
theorem detect_pauses_two_points (hav : Fix → Fix → ℚ) (cfg : Config) (points : List Fix)
    (h2 : points.length = 2) :
    (detect_pauses hav points cfg).1.length ≤ 1 ∧
    ((detect_pauses hav points cfg).1 = [] ↔
      start_criteria hav cfg points 0 = false ∧ start_criteria hav cfg points 1 = false) := by
  obtain ⟨a, b, rfl⟩ := List.length_eq_two.mp h2
  have hne : ¬ ([a, b] : List Fix).length < 2 := by simp
  unfold detect_pauses
  rw [if_neg hne]
  have hlen : ([a, b] : List Fix).length = 0 + 1 + 1 := rfl
  rw [hlen, scanFrom_succ]
  by_cases s0 : start_criteria hav cfg [a, b] 0 = true
  · have hstep : scanStep hav cfg [a, b] 0 .notPaused =
        (.paused (getF [a, b] 0) 0 (cumulative_distance hav [a, b] 0), none) := by
      simp [scanStep, s0]
    rw [hstep, scanFrom_succ]
    by_cases e1 : end_criteria hav cfg [a, b] 1 = true
    · have hstep1 : scanStep hav cfg [a, b] 1
          (.paused (getF [a, b] 0) 0 (cumulative_distance hav [a, b] 0)) =
          (.notPaused, some (make_pause_info hav [a, b] (getF [a, b] 0) 0
            (cumulative_distance hav [a, b] 0) 1)) := by
        simp [scanStep, e1]
      rw [hstep1]
      refine ⟨by simp [scanFrom], ?_⟩
      simp [scanFrom, s0]
    · rw [Bool.not_eq_true] at e1
      have hstep1 : scanStep hav cfg [a, b] 1
          (.paused (getF [a, b] 0) 0 (cumulative_distance hav [a, b] 0)) =
          (.paused (getF [a, b] 0) 0 (cumulative_distance hav [a, b] 0), none) := by
        simp [scanStep, e1]
      rw [hstep1]
      refine ⟨by simp [scanFrom], ?_⟩
      simp [scanFrom, s0]
  · rw [Bool.not_eq_true] at s0
    have hstep : scanStep hav cfg [a, b] 0 .notPaused = (.notPaused, none) := by
      simp [scanStep, s0]
    rw [hstep, scanFrom_succ]
    by_cases s1 : start_criteria hav cfg [a, b] 1 = true
    · have hstep1 : scanStep hav cfg [a, b] 1 .notPaused =
          (.paused (getF [a, b] 1) 1 (cumulative_distance hav [a, b] 1), none) := by
        simp [scanStep, s1]
      rw [hstep1]
      refine ⟨by simp [scanFrom], ?_⟩
      simp [scanFrom, s0, s1]
    · rw [Bool.not_eq_true] at s1
      have hstep1 : scanStep hav cfg [a, b] 1 .notPaused = (.notPaused, none) := by
        simp [scanStep, s1]
      rw [hstep1]
      refine ⟨by simp [scanFrom], ?_⟩
      simp [scanFrom, s0, s1]

/-- Witness for the amended C4 on the concrete 2-fix track `pts2`. -/
theorem detect_pauses_two_points_witness :
    (detect_pauses hav0 pts2 default_config).1.length ≤ 1 ∧
    ((detect_pauses hav0 pts2 default_config).1 = [] ↔
      start_criteria hav0 default_config pts2 0 = false ∧
      start_criteria hav0 default_config pts2 1 = false) :=
  detect_pauses_two_points hav0 default_config pts2 rfl

/-! ## C5: the average-pace query -/

/-- C5: for a fix sequence with non-decreasing timestamps and a point count
`n ≥ 1`, the pace query returns "no data" exactly when `i = 0` (which is
when the clamped window start `max(0, i-n)`, here the truncated
subtraction `i - n`, reaches `i`), or the total distance over the segments
from `i - n` to `i` is 0, or the total elapsed time over them is 0; in
every other case it returns `(total seconds / total meters) * 1000 / 60`
minutes per kilometer. -/
theorem average_pace_none_iff (hav : Fix → Fix → ℚ) (points : List Fix) (i n : ℕ)
    (hsorted : List.Chain' (fun a b => a.ts ≤ b.ts) points) (hn : 1 ≤ n) :
    (calculate_average_pace_last_points hav points i n = none ↔
      i = 0 ∨ distance_during hav points (i - n) i = 0 ∨ time_during points (i - n) i = 0)
    ∧ (i ≠ 0 → distance_during hav points (i - n) i ≠ 0 → time_during points (i - n) i ≠ 0 →
      calculate_average_pace_last_points hav points i n =
        some ((time_during points (i - n) i / distance_during hav points (i - n) i)
          * 1000 / 60)) := by
  simp only [calculate_average_pace_last_points]
  constructor
  · by_cases hi : i = 0
    · subst hi
      rw [if_pos (by omega)]
      simp
    · rw [if_neg (by omega)]
      by_cases hd : distance_during hav points (i - n) i = 0 ∨ time_during points (i - n) i = 0
      · rw [if_pos hd]
        simp only [true_iff]
        tauto
      · rw [if_neg hd]
        simp only [reduceCtorEq, false_iff]
        tauto
  · intro hi h1 h2
    rw [if_neg (by omega), if_neg (by tauto)]

/-- Witness for C5 on the concrete stationary track `pts2`: at index 1 with
`n = 10` the total distance is 0, so the pace query returns "no data". -/
theorem average_pace_none_iff_witness :
    calculate_average_pace_last_points hav0 pts2 1 10 = none := by
  have hs : List.Chain' (fun a b => a.ts ≤ b.ts) pts2 := by
    norm_num [pts2, fixA, fixB, List.chain'_cons, List.chain'_singleton]
  exact (average_pace_none_iff hav0 pts2 1 10 hs (by norm_num)).1.mpr
    (Or.inr (Or.inl (by simp [distance_during, hav0])))

/-! ## C6: the sample-density query -/

/-- The backward scan counts at most `i + 1` fixes. -/
lemma densityCount_le (points : List Fix) (st : ℚ) :
    ∀ i, densityCount points st i ≤ i + 1 := by
  intro i
  induction i with
  | zero => by_cases h : st ≤ (getF points 0).ts <;> simp [densityCount, h]
  | succ n ih =>
    by_cases h : st ≤ (getF points (n + 1)).ts <;> simp [densityCount, h]
    omega

/-- Every index the backward scan counted has a timestamp at or above the
window bound. -/
lemma densityCount_counted (points : List Fix) (st : ℚ) :
    ∀ i j, i + 1 - densityCount points st i ≤ j → j ≤ i → st ≤ (getF points j).ts := by
  intro i
  induction i with
  | zero =>
    intro j h1 h2
    by_cases h : st ≤ (getF points 0).ts
    · interval_cases j
      exact h
    · simp [densityCount, h] at h1
      omega
  | succ n ih =>
    intro j h1 h2
    by_cases h : st ≤ (getF points (n + 1)).ts
    · simp only [densityCount, if_pos h] at h1
      rcases Nat.lt_or_ge j (n + 1) with hj | hj
      · exact ih j (by omega) (by omega)
      · have : j = n + 1 := by omega
        subst this
        exact h
    · simp only [densityCount, if_neg h] at h1
      omega

/-- When the backward scan stopped before exhausting the indices, the fix
just below the counted range has a timestamp strictly below the bound. -/
lemma densityCount_stop (points : List Fix) (st : ℚ) :
    ∀ i, densityCount points st i ≤ i →
      (getF points (i - densityCount points st i)).ts < st := by
  intro i
  induction i with
  | zero =>
    intro h1
    by_cases h : st ≤ (getF points 0).ts
    · simp [densityCount, h] at h1
    · simpa [densityCount, h] using not_le.mp h
  | succ n ih =>
    intro h1
    by_cases h : st ≤ (getF points (n + 1)).ts
    · simp only [densityCount, if_pos h] at h1 ⊢
      have : n + 1 - (densityCount points st n + 1) = n - densityCount points st n := by omega
      rw [this]
      exact ih (by omega)
    · simp only [densityCount, if_neg h] at h1 ⊢
      simpa using not_le.mp h

/-- C6: for `i > 0` the density query scans backward from `i` (fix `i`
included), counting fixes until the first one whose timestamp is below
`Fix[i].ts - durationSeconds`: every counted fix is inside the bound, the
first uncounted fix (when one exists) is outside it, and at most `i + 1`
fixes are counted.  The query returns "no data" at `i = 0`, when fewer
than 2 fixes are counted, or when the elapsed time from the earliest
counted fix to `Fix[i]` is 0; otherwise it returns count divided by that
elapsed time. -/
theorem point_density_spec (points : List Fix) (i : ℕ) (d : ℚ)
    (hsorted : List.Chain' (fun a b => a.ts ≤ b.ts) points) (hi : 0 < i) :
    (calculate_point_density_last_seconds points 0 d = none)
    ∧ (∀ j, i + 1 - densityCount points ((getF points i).ts - d) i ≤ j → j ≤ i →
        (getF points i).ts - d ≤ (getF points j).ts)
    ∧ (densityCount points ((getF points i).ts - d) i ≤ i →
        (getF points (i - densityCount points ((getF points i).ts - d) i)).ts <
          (getF points i).ts - d)
    ∧ densityCount points ((getF points i).ts - d) i ≤ i + 1
    ∧ (calculate_point_density_last_seconds points i d = none ↔
        densityCount points ((getF points i).ts - d) i < 2 ∨
        (getF points i).ts -
          (getF points (i + 1 - densityCount points ((getF points i).ts - d) i)).ts = 0)
    ∧ (2 ≤ densityCount points ((getF points i).ts - d) i →
        (getF points i).ts -
          (getF points (i + 1 - densityCount points ((getF points i).ts - d) i)).ts ≠ 0 →
        calculate_point_density_last_seconds points i d =
          some ((densityCount points ((getF points i).ts - d) i : ℚ) /
            ((getF points i).ts -
              (getF points (i + 1 - densityCount points ((getF points i).ts - d) i)).ts))) := by
  refine ⟨by simp [calculate_point_density_last_seconds], ?_, ?_, ?_, ?_, ?_⟩
  · exact densityCount_counted points ((getF points i).ts - d) i
  · exact densityCount_stop points ((getF points i).ts - d) i
  · exact densityCount_le points ((getF points i).ts - d) i
  · simp only [calculate_point_density_last_seconds]
    rw [if_neg (by omega)]
    by_cases hc : densityCount points ((getF points i).ts - d) i < 2
    · rw [if_pos hc]
      simp only [true_iff]
      exact Or.inl hc
    · rw [if_neg hc]
      by_cases ht : (getF points i).ts -
          (getF points (i + 1 - densityCount points ((getF points i).ts - d) i)).ts = 0
      · rw [if_pos ht]
        simp only [true_iff]
        exact Or.inr ht
      · rw [if_neg ht]
        simp only [reduceCtorEq, false_iff]
        tauto
  · intro hc ht
    simp only [calculate_point_density_last_seconds]
    rw [if_neg (by omega), if_neg (by omega), if_neg ht]

/-- Witness for C6 on the concrete track `pts2` at index 1 with a 30-second
window: both fixes are counted and the density is `2 / 10 = 1/5` samples
per second. -/
theorem point_density_spec_witness :
    calculate_point_density_last_seconds pts2 1 30 = some (1 / 5) := by
  have hs : List.Chain' (fun a b => a.ts ≤ b.ts) pts2 := by
    norm_num [pts2, fixA, fixB, List.chain'_cons, List.chain'_singleton]
  have hc : densityCount pts2 ((getF pts2 1).ts - 30) 1 = 2 := by
    norm_num [densityCount, getF, pts2, fixA, fixB]
  have h := (point_density_spec pts2 1 30 hs (by norm_num)).2.2.2.2.2
    (by rw [hc]) (by rw [hc]; norm_num [getF, pts2, fixA, fixB])
  rw [h, hc]
  norm_num [getF, pts2, fixA, fixB]

/-! ## C10: the pause post-processing pace -/

/-- A segment contributes no pace exactly when it lacks positive distance or
positive elapsed time. -/
lemma segment_pace_eq_none (hav : Fix → Fix → ℚ) (points : List Fix) (i : ℕ) :
    segment_pace hav points i = none ↔
      ¬ (0 < hav (getF points i) (getF points (i + 1)) ∧
         0 < (getF points (i + 1)).ts - (getF points i).ts) := by
  simp only [segment_pace]
  by_cases h : 0 < hav (getF points i) (getF points (i + 1)) ∧
      0 < (getF points (i + 1)).ts - (getF points i).ts
  · rw [if_pos h]
    exact iff_of_false (by simp) (not_not_intro h)
  · rw [if_neg h]
    exact iff_of_true rfl h

/-- C10: the post-processing average pace returns "no data" whenever the
points list is empty or `start_index ≥ end_index`; on a valid range it
returns "no data" exactly when no segment in `[start_index, end_index)`
has both positive distance and positive elapsed time, and otherwise it is
the arithmetic mean of the qualifying per-segment paces (whose list is
nonempty, so the division is by a nonzero count). -/
theorem pause_pace_spec (hav : Fix → Fix → ℚ) (points : List Fix) (a b : ℕ) :
    (points = [] ∨ b ≤ a → calculate_average_pace_during_pause hav points a b = none)
    ∧ (points ≠ [] → a < b → b < points.length →
        (calculate_average_pace_during_pause hav points a b = none ↔
          ∀ j, a ≤ j → j < b →
            ¬ (0 < hav (getF points j) (getF points (j + 1)) ∧
               0 < (getF points (j + 1)).ts - (getF points j).ts)))
    ∧ (points ≠ [] → a < b → instantaneous_paces hav points a b ≠ [] →
        calculate_average_pace_during_pause hav points a b =
          some ((instantaneous_paces hav points a b).sum /
            (instantaneous_paces hav points a b).length)) := by
  have hkey : instantaneous_paces hav points a b = [] ↔
      ∀ j, a ≤ j → j < b →
        ¬ (0 < hav (getF points j) (getF points (j + 1)) ∧
           0 < (getF points (j + 1)).ts - (getF points j).ts) := by
    rw [instantaneous_paces, List.filterMap_eq_nil_iff]
    constructor
    · intro h j hj1 hj2
      have hmem := h (j - a) (List.mem_range.mpr (by omega))
      rw [show a + (j - a) = j from by omega] at hmem
      exact (segment_pace_eq_none hav points j).mp hmem
    · intro h k hk
      have hk' := List.mem_range.mp hk
      exact (segment_pace_eq_none hav points (a + k)).mpr (h (a + k) (by omega) (by omega))
  refine ⟨?_, ?_, ?_⟩
  · intro h
    simp only [calculate_average_pace_during_pause]
    rw [if_pos h]
  · intro h1 h2 _
    simp only [calculate_average_pace_during_pause]
    rw [if_neg ?hguard]
    case hguard =>
      intro hcon
      rcases hcon with hh | hh
      · exact h1 hh
      · omega
    by_cases hp : instantaneous_paces hav points a b = []
    · rw [if_pos hp]
      exact iff_of_true rfl (hkey.mp hp)
    · rw [if_neg hp]
      exact iff_of_false (by simp) (fun hforall => hp (hkey.mpr hforall))
  · intro h1 h2 hp
    simp only [calculate_average_pace_during_pause]
    rw [if_neg ?hguard2, if_neg hp]
    case hguard2 =>
      intro hcon
      rcases hcon with hh | hh
      · exact h1 hh
      · omega

/-- Witness for C10 on the concrete stationary track `pts2`: every segment
distance is 0 under `hav0`, so the post-processing pace is "no data", and
the degenerate-range call returns "no data" as well. -/
theorem pause_pace_spec_witness :
    calculate_average_pace_during_pause hav0 pts2 0 0 = none ∧
    calculate_average_pace_during_pause hav0 pts2 0 1 = none := by
  constructor
  · exact (pause_pace_spec hav0 pts2 0 0).1 (Or.inr le_rfl)
  · refine ((pause_pace_spec hav0 pts2 0 1).2.1 (by simp [pts2]) (by norm_num)
      (by simp [pts2])).mpr ?_
    intro j hj1 hj2
    intro hcond
    exact absurd hcond.1 (by simp [hav0])

/-! ## C8: algebraic properties of the haversine distance -/

/-- The haversine intermediate `a` vanishes on identical points. -/
lemma hav_a_self (lat lon : ℝ) : hav_a lat lon lat lon = 0 := by
  simp [hav_a]

/-- The haversine intermediate `a` is symmetric in its two points. -/
lemma hav_a_symm (lat1 lon1 lat2 lon2 : ℝ) :
    hav_a lat1 lon1 lat2 lon2 = hav_a lat2 lon2 lat1 lon1 := by
  unfold hav_a
  have h : ∀ x y : ℝ, Real.sin ((x - y) / 2) ^ 2 = Real.sin ((y - x) / 2) ^ 2 := by
    intro x y
    rw [show (x - y) / 2 = -((y - x) / 2) by ring, Real.sin_neg]
    ring
  rw [h (radians lat2) (radians lat1), h (radians lon2) (radians lon1)]
  ring

/-- C8: the haversine distance of a point to itself is 0, the function is
symmetric in its two points, and it is total — it is defined (returns a
real number) on all inputs, with no error conditions. -/
theorem haversine_properties :
    (∀ lat lon : ℝ, haversine lat lon lat lon = 0)
    ∧ (∀ lat1 lon1 lat2 lon2 : ℝ,
        haversine lat1 lon1 lat2 lon2 = haversine lat2 lon2 lat1 lon1)
    ∧ (∀ lat1 lon1 lat2 lon2 : ℝ, ∃ d : ℝ, haversine lat1 lon1 lat2 lon2 = d) := by
  refine ⟨?_, ?_, fun lat1 lon1 lat2 lon2 => ⟨_, rfl⟩⟩
  · intro lat lon
    rw [haversine, hav_a_self, Real.sqrt_zero, sub_zero, Real.sqrt_one, atan2,
      if_pos one_pos, zero_div, Real.arctan_zero, mul_zero, mul_zero]
  · intro lat1 lon1 lat2 lon2
    simp only [haversine]
    rw [hav_a_symm lat1 lon1 lat2 lon2]

end BreakDetection
